import Mathlib

/-!
# chromedp: action sequencing, cancellable waits and the command response race

A shallow embedding of `actions.go` (package `chromedp`) and of
`cdp/storage/storage.go` (package `storage`).

Go functions with side effects are state-passing functions on an explicit
state.  A Go function that blocks for ever has no result: every `Do` returns
an `Option`, where `none` stands for "never returns".  The Go value `error`
is `Option GoError`, with `none` for the `nil` error.
-/

namespace Chromedp

/-! ## Values shared by both packages -/

/-- The method and event names of the protocol (`cdproto.MethodType`, a string type). -/
abbrev MethodType := String

/-- The identity of a Go channel (the address of its runtime object). -/
abbrev Chan := Nat

/-- Non-nil Go error values.

Modelled from the spec: `ErrChannelClosed`, `ErrContextDone` and `ErrUnknownResult`
are package-level values of package `cdp`, which `storage.go` dot-imports; their
declarations are not part of the sources at hand.  Section 7 of the spec lists
them as separate kinds of error, so they are separate constructors here. -/
inductive GoError where
  /-- The value `context.Canceled`. -/
  | Canceled
  /-- The value `context.DeadlineExceeded`. -/
  | DeadlineExceeded
  /-- The value `cdp.ErrChannelClosed`. -/
  | ErrChannelClosed
  /-- The value `cdp.ErrContextDone`. -/
  | ErrContextDone
  /-- The value `cdp.ErrUnknownResult`. -/
  | ErrUnknownResult
  /-- The value `errors.New(text)`. -/
  | New (text : String)
  /-- Any other error value, such as a `*cdp.MessageError` sent by the peer. -/
  | remote (code : Int) (message : String)
  deriving DecidableEq, Repr

/-- The Go interface type `error`: `none` is the `nil` error. -/
abbrev error := Option GoError

/-- A non-nil `context.Context`.

`actions.go` calls `ctxt.Done()` and `ctxt.Err()` without a nil test, so its
functions take a `Context`; `storage.go` tests `ctxt == nil` and takes an
`Option Context`. -/
inductive Context where
  /-- The value `context.Background()`: its `Done()` channel is nil and is never ready. -/
  | background
  /-- A cancellable context.  `cause` is the error `Err()` reports once `Done()` is
  closed: `context.Canceled` after a cancel, `context.DeadlineExceeded` after a
  deadline or timeout. -/
  | cancelCtx (id : Nat) (cause : GoError)
  deriving DecidableEq, Repr

/-- The value of `ctxt.Err()` read after `<-ctxt.Done()` has been taken. -/
def Context.Err : Context → error
  | .background => none
  | .cancelCtx _ cause => some cause

/-- The dynamic value of a `cdp.Executor` interface. -/
inductive Executor where
  /-- A `*TargetHandler`, identified by its address. -/
  | targetHandler (handler : Nat)
  /-- A value of any other dynamic type (or the nil interface). -/
  | other (id : Nat)
  deriving DecidableEq, Repr

/-! ## `actions.go`: Action, ActionFunc, Tasks -/

/-- The interface `Action`: a value with a method `Do(context.Context, cdp.Executor) error`.
The method runs on a state `σ`; `none` means the call never returns. -/
structure Action (σ : Type) where
  Do : Context → Executor → σ → Option (error × σ)

/-- The adapter `type ActionFunc func(context.Context, cdp.Executor) error`. -/
def ActionFunc (σ : Type) := Context → Executor → σ → Option (error × σ)

/-- The method `func (f ActionFunc) Do(ctxt, h) error { return f(ctxt, h) }`. -/
def ActionFunc.Do {σ : Type} (f : ActionFunc σ) (ctxt : Context) (h : Executor) (s : σ) :
    Option (error × σ) :=
  f ctxt h s

/-- An `ActionFunc` used as an `Action`. -/
def ActionFunc.toAction {σ : Type} (f : ActionFunc σ) : Action σ :=
  ⟨ActionFunc.Do f⟩

/-- The type `type Tasks []Action`. -/
abbrev Tasks (σ : Type) := List (Action σ)

/-- The method `func (t Tasks) Do(ctxt, h) error`: the `for _, a := range t` loop with
its early `return err`, and `return nil` after the loop. -/
def Tasks.Do {σ : Type} : Tasks σ → Context → Executor → σ → Option (error × σ)
  | [], _, _, s => some (none, s)
  | a :: t, ctxt, h, s =>
    match a.Do ctxt h s with
    | none => none
    | some (some err, s1) => some (some err, s1)
    | some (none, s1) => Tasks.Do t ctxt h s1

/-- A `Tasks` value used as an `Action`. -/
def Tasks.toAction {σ : Type} (t : Tasks σ) : Action σ :=
  ⟨Tasks.Do t⟩

/-! ## Observing a run of `Tasks.Do` -/

/-- One call `a.Do(ctxt, h)` as seen by a side-effect counter: the position of `a` in
the list (from 0) and the two arguments it received. -/
structure Invocation where
  index : Nat
  ctxt : Context
  h : Executor
  deriving DecidableEq, Repr

/-- The action `a` with a counter in front: it appends its own invocation to a log
kept next to the state, then behaves as `a`. -/
def probe {σ : Type} (i : Nat) (a : Action σ) : Action (σ × List Invocation) :=
  ⟨fun ctxt h s =>
    match a.Do ctxt h s.1 with
    | none => none
    | some (err, s1) => some (err, (s1, s.2 ++ [⟨i, ctxt, h⟩]))⟩

/-- Every action of the list with a counter in front, numbered from `n`. -/
def instrumentFrom {σ : Type} : Nat → Tasks σ → Tasks (σ × List Invocation)
  | _, [] => []
  | n, a :: t => probe n a :: instrumentFrom (n + 1) t

/-- Every action of the list with a counter in front, numbered from 0. -/
def instrument {σ : Type} (t : Tasks σ) : Tasks (σ × List Invocation) :=
  instrumentFrom 0 t

/-- The invocations of the actions at positions `n, n+1, ..., n+len-1`, in that
order, each with the arguments `ctxt` and `h`. -/
def invocations (ctxt : Context) (h : Executor) (n len : Nat) : List Invocation :=
  (List.range len).map (fun i => ⟨n + i, ctxt, h⟩)

/-- The actions of the list, run one after the other from state `s`, all return `nil`
and leave the state `s1`. -/
def AllNil {σ : Type} (ctxt : Context) (h : Executor) : Tasks σ → σ → σ → Prop
  | [], s, s1 => s1 = s
  | a :: t, s, s1 => ∃ s2, a.Do ctxt h s = some (none, s2) ∧ AllNil ctxt h t s2 s1

/-! ## The surroundings of a goroutine: channels, the event bus, the runtime -/

/-- The dynamic value of an `interface{}` received from a channel. -/
inductive Value where
  /-- The nil interface: also the zero value a receive yields on a closed channel. -/
  | nil
  /-- A value of type `easyjson.RawMessage` holding the given bytes. -/
  | RawMessage (bytes : List Nat)
  /-- A non-nil value whose dynamic type implements `error`. -/
  | error (e : GoError)
  /-- A non-nil value of any other dynamic type. -/
  | other (id : Nat)
  deriving DecidableEq, Repr

/-- One entry of the event bus: the channel `ch` of handler `handler` is registered
for the event named `event`. -/
structure Subscription where
  handler : Nat
  event : MethodType
  ch : Chan
  deriving DecidableEq, Repr

/-- What the producers around a waiting goroutine do, one entry for each thing the
runtime lets happen. -/
inductive Occurrence where
  /-- A producer sends `v` on channel `ch`. -/
  | send (ch : Chan) (v : Value)
  /-- A producer closes channel `ch` without writing. -/
  | close (ch : Chan)
  /-- The bus dispatches the event named `event` with the given payload. -/
  | dispatch (event : MethodType) (payload : Value)
  /-- The `Done()` channel of the cancellable context `ctx` is closed. -/
  | done (ctx : Nat)
  deriving DecidableEq, Repr

/-- The calls and communications of a goroutine that the state records. -/
inductive Call where
  /-- The call `time.After(d)` returned `ch`. -/
  | After (d : Int) (ch : Chan)
  /-- The call `handler.Listen(event)` returned `ch`. -/
  | Listen (handler : Nat) (event : MethodType) (ch : Chan)
  /-- The call `handler.Release(ch)`. -/
  | Release (handler : Nat) (ch : Chan)
  /-- The call `h.Execute(ctxt, method, params)` returned `ch`. -/
  | Execute (h : Nat) (ctxt : Context) (method : MethodType) (params : List Nat) (ch : Chan)
  /-- A `select` took its case `<-ch` and received `v`. -/
  | recv (ch : Chan) (v : Value)
  /-- A `select` took its case `<-ctxt.Done()`. -/
  | done (ctxt : Context)
  deriving DecidableEq, Repr

/-- The state a goroutine runs in: the subscriptions the bus holds, the channels made
so far, what the producers will do (`script`), and the record of what the goroutine
has done (`trace`). -/
structure World where
  subs : List Subscription
  nextChan : Chan
  script : List Occurrence
  trace : List Call
  deriving DecidableEq, Repr

/-- The channel the next `make(chan ...)` returns: one that is not registered with the
bus and differs from every channel made so far. -/
def World.fresh (w : World) : Chan :=
  (w.subs.map Subscription.ch).foldr (fun c m => max (c + 1) m) w.nextChan

/-- The case a two-way `select` took. -/
inductive Taken where
  /-- The case receiving from the channel, with the value received. -/
  | recv (v : Value)
  /-- The case `<-ctxt.Done()`. -/
  | done
  deriving DecidableEq, Repr

/-- The value a receive on `ch` yields when the occurrence lets it proceed: a send on
`ch`, a close of `ch` (the zero value), or the dispatch of an event for which `ch` is
registered.

Modelled from the spec: dispatch by the bus is not part of the sources at hand;
section 3 describes a subscription as an entry mapping an event name to a delivery
channel, each subscription receiving its own delivery. -/
def receives (subs : List Subscription) (ch : Chan) : Occurrence → Option Value
  | .send c v => if c = ch then some v else none
  | .close c => if c = ch then some Value.nil else none
  | .dispatch ev payload =>
    if subs.any (fun s => decide (s.ch = ch ∧ s.event = ev)) then some payload else none
  | .done _ => none

/-- The occurrence makes `<-ctxt.Done()` ready. -/
def cancels : Context → Occurrence → Bool
  | .cancelCtx id _, .done c => decide (c = id)
  | _, _ => false

/-- The runtime resolving `select { case <-ch: ...; case <-ctxt.Done(): ... }`: the
first occurrence that makes one of the two cases ready decides; occurrences that
concern neither case pass by; with no such occurrence the select blocks for ever. -/
def await (subs : List Subscription) (ch : Chan) (ctxt : Context) :
    List Occurrence → Option (Taken × List Occurrence)
  | [] => none
  | o :: rest =>
    match receives subs ch o with
    | some v => some (Taken.recv v, rest)
    | none => if cancels ctxt o then some (Taken.done, rest) else await subs ch ctxt rest

/-- The statement `select { case <-ch: ...; case <-ctxt.Done(): ... }` run in a state:
the case taken is recorded and the script is consumed up to the deciding occurrence. -/
def selectRecvOrDone (ch : Chan) (ctxt : Context) (w : World) : Option (Taken × World) :=
  match await w.subs ch ctxt w.script with
  | none => none
  | some (Taken.recv v, rest) =>
    some (Taken.recv v, { w with script := rest, trace := w.trace ++ [Call.recv ch v] })
  | some (Taken.done, rest) =>
    some (Taken.done, { w with script := rest, trace := w.trace ++ [Call.done ctxt] })

/-- The call `time.After(d)`: a new channel on which the runtime sends once `d` has
elapsed. -/
def time.After (d : Int) (w : World) : Chan × World :=
  (w.fresh, { w with nextChan := w.fresh + 1, trace := w.trace ++ [Call.After d w.fresh] })

/-- The method `(*TargetHandler).Listen(event)`.

Modelled from the spec: the method is not part of the sources at hand; by sections 3
and 4.4 it registers interest in the named event and returns the delivery channel,
creating one entry of the event-name to channel mapping. -/
def TargetHandler.Listen (handler : Nat) (event : MethodType) (w : World) : Chan × World :=
  (w.fresh,
   { w with
     subs := w.subs ++ [⟨handler, event, w.fresh⟩]
     nextChan := w.fresh + 1
     trace := w.trace ++ [Call.Listen handler event w.fresh] })

/-- The method `(*TargetHandler).Release(ch)`.

Modelled from the spec: the method is not part of the sources at hand; by sections 3
and 4.4 it deregisters the channel, removing the entry `Listen` created. -/
def TargetHandler.Release (handler : Nat) (ch : Chan) (w : World) : World :=
  { w with
    subs := w.subs.filter (fun s => !decide (s.handler = handler ∧ s.ch = ch))
    trace := w.trace ++ [Call.Release handler ch] }

/-! ## `actions.go`: Sleep and WaitEvent -/

/-- The function `Sleep(d time.Duration) Action`. -/
def Sleep (d : Int) : Action World :=
  ActionFunc.toAction (fun ctxt _h w =>
    let (timer, w1) := time.After d w
    match selectRecvOrDone timer ctxt w1 with
    | none => none
    | some (Taken.recv _, w2) => some (none, w2)
    | some (Taken.done, w2) => some (ctxt.Err, w2))

/-- The function `WaitEvent(event cdproto.MethodType) Action`.  The deferred
`handler.Release(ch)` runs when the function returns, after the result is evaluated;
it does not run when the `select` blocks for ever. -/
def WaitEvent (event : MethodType) : Action World :=
  ActionFunc.toAction (fun ctx h w =>
    match h with
    | Executor.targetHandler handler =>
      let (ch, w1) := TargetHandler.Listen handler event w
      match selectRecvOrDone ch ctx w1 with
      | none => none
      | some (Taken.recv _, w2) => some (none, TargetHandler.Release handler ch w2)
      | some (Taken.done, w2) => some (ctx.Err, TargetHandler.Release handler ch w2)
    | Executor.other _ =>
      some (some (GoError.New "load event error, not target handler"), w))

/-! ## `cdp/storage/storage.go` -/

/-- The constant `cdp.CommandStorageClearDataForOrigin`.

Modelled from the spec: the constant is declared in package `cdp`, not part of the
sources at hand; the comment of `Do` names the method `Storage.clearDataForOrigin`. -/
def CommandStorageClearDataForOrigin : MethodType := "Storage.clearDataForOrigin"

/-- The struct `ClearDataForOriginParams`. -/
structure ClearDataForOriginParams where
  Origin : String
  StorageTypes : String
  deriving DecidableEq, Repr

/-- The constructor `ClearDataForOrigin(origin, storageTypes)`. -/
def ClearDataForOrigin (origin : String) (storageTypes : String) : ClearDataForOriginParams :=
  { Origin := origin, StorageTypes := storageTypes }

/-- The method `Execute(ctxt, method, params)` of a `FrameHandler`.

Modelled from the spec: the method is not part of the sources at hand; by sections
4.3 and 6 it submits the command and returns a single-use channel for its outcome. -/
def FrameHandler.Execute (h : Nat) (ctxt : Context) (method : MethodType) (params : List Nat)
    (w : World) : Chan × World :=
  (w.fresh,
   { w with
     nextChan := w.fresh + 1
     trace := w.trace ++ [Call.Execute h ctxt method params w.fresh] })

/-- The method `func (p *ClearDataForOriginParams) Do(ctxt, h FrameHandler) (err error)`.
The encoder `easyjson.Marshal` is a parameter: it yields the bytes or a non-nil
error. -/
def ClearDataForOriginParams.Do
    (Marshal : ClearDataForOriginParams → Except GoError (List Nat))
    (p : ClearDataForOriginParams) (ctxt : Option Context) (h : Nat) (w : World) :
    Option (error × World) :=
  let ctxt : Context :=
    match ctxt with
    | none => Context.background
    | some c => c
  match Marshal p with
  | Except.error err => some (some err, w)
  | Except.ok buf =>
    let (ch, w1) := FrameHandler.Execute h ctxt CommandStorageClearDataForOrigin buf w
    match selectRecvOrDone ch ctxt w1 with
    | none => none
    | some (Taken.recv res, w2) =>
      match res with
      | Value.nil => some (some GoError.ErrChannelClosed, w2)
      | Value.RawMessage _ => some (none, w2)
      | Value.error v => some (some v, w2)
      | Value.other _ => some (some GoError.ErrUnknownResult, w2)
    | some (Taken.done, w2) => some (some GoError.ErrContextDone, w2)

/-! ## Reading a script -/

/-- The script splits as `pre ++ o :: rest` and no occurrence of `pre` makes either
case of a select on `<-ch` and `<-ctxt.Done()` ready: `o` is the first occurrence
that can decide that select. -/
def PassesBy (subs : List Subscription) (ch : Chan) (ctxt : Context)
    (script pre : List Occurrence) (o : Occurrence) (rest : List Occurrence) : Prop :=
  script = pre ++ o :: rest ∧
    ∀ x ∈ pre, receives subs ch x = none ∧ cancels ctxt x = false

/-! ## Concrete actions, contexts and states used as examples -/

/-- An action that counts its own executions in the state and returns `err`. -/
def counterAction (err : error) : Action Nat :=
  ⟨fun _ _ n => some (err, n + 1)⟩

/-- A context whose cancel function has been called. -/
def canceledCtx : Context := Context.cancelCtx 1 GoError.Canceled

/-- A context whose deadline has passed. -/
def expiredCtx : Context := Context.cancelCtx 2 GoError.DeadlineExceeded

/-- A state with no subscription, no channel made and nothing recorded, in which the
producers will do what `script` says. -/
def World.start (script : List Occurrence) : World :=
  { subs := [], nextChan := 0, script := script, trace := [] }

/-- An encoder that always succeeds, with the two bytes of an empty JSON object. -/
def encodeOk : ClearDataForOriginParams → Except GoError (List Nat) :=
  fun _ => Except.ok [123, 125]

/-! ## Lemmas on `Tasks.Do` -/

theorem Tasks.Do_append {σ : Type} (xs ys : Tasks σ) (ctxt : Context) (h : Executor) (s : σ) :
    Tasks.Do (xs ++ ys) ctxt h s =
      match Tasks.Do xs ctxt h s with
      | none => none
      | some (some err, s1) => some (some err, s1)
      | some (none, s1) => Tasks.Do ys ctxt h s1 := by
  induction xs generalizing s with
  | nil => simp [Tasks.Do]
  | cons a t ih =>
    simp only [List.cons_append, Tasks.Do]
    cases hd : a.Do ctxt h s with
    | none => rfl
    | some r =>
      obtain ⟨err, s1⟩ := r
      cases err with
      | none => exact ih s1
      | some e => rfl

theorem Tasks.Do_of_allNil {σ : Type} (pre rest : Tasks σ) (ctxt : Context) (h : Executor)
    (s s1 : σ) (hnil : AllNil ctxt h pre s s1) :
    Tasks.Do (pre ++ rest) ctxt h s = Tasks.Do rest ctxt h s1 := by
  induction pre generalizing s with
  | nil =>
    simp only [AllNil] at hnil
    subst hnil
    rfl
  | cons a t ih =>
    obtain ⟨s2, ha, ht⟩ := hnil
    simp only [List.cons_append, Tasks.Do, ha]
    exact ih s2 ht

theorem instrumentFrom_append {σ : Type} (n : Nat) (xs ys : Tasks σ) :
    instrumentFrom n (xs ++ ys) = instrumentFrom n xs ++ instrumentFrom (n + xs.length) ys := by
  induction xs generalizing n with
  | nil => simp [instrumentFrom]
  | cons a t ih =>
    have e : n + 1 + t.length = n + (t.length + 1) := by omega
    have step := ih (n + 1)
    rw [e] at step
    show probe n a :: instrumentFrom (n + 1) (t ++ ys) =
      probe n a :: instrumentFrom (n + 1) t ++ instrumentFrom (n + (t.length + 1)) ys
    rw [step, List.cons_append]

theorem invocations_zero (ctxt : Context) (h : Executor) (n : Nat) :
    invocations ctxt h n 0 = [] := by
  simp [invocations]

theorem invocations_succ (ctxt : Context) (h : Executor) (n len : Nat) :
    invocations ctxt h n (len + 1) = ⟨n, ctxt, h⟩ :: invocations ctxt h (n + 1) len := by
  simp only [invocations, List.range_succ_eq_map, List.map_cons, List.map_map, Nat.add_zero]
  congr 1
  apply List.map_congr_left
  intro i _
  simp only [Function.comp, Invocation.mk.injEq, and_self, and_true]
  omega

theorem invocations_snoc (ctxt : Context) (h : Executor) (n len : Nat) :
    invocations ctxt h n (len + 1) = invocations ctxt h n len ++ [⟨n + len, ctxt, h⟩] := by
  simp [invocations, List.range_succ]

theorem allNil_instrumentFrom {σ : Type} (t : Tasks σ) (ctxt : Context) (h : Executor)
    (n : Nat) (s s1 : σ) (log : List Invocation) (hnil : AllNil ctxt h t s s1) :
    AllNil ctxt h (instrumentFrom n t) (s, log) (s1, log ++ invocations ctxt h n t.length) := by
  induction t generalizing s n log with
  | nil =>
    simp only [AllNil] at hnil
    subst hnil
    simp [instrumentFrom, AllNil, invocations_zero]
  | cons a t ih =>
    obtain ⟨s2, ha, ht⟩ := hnil
    refine ⟨(s2, log ++ [⟨n, ctxt, h⟩]), ?_, ?_⟩
    · simp [probe, ha]
    · have := ih (n + 1) s2 (log ++ [⟨n, ctxt, h⟩]) ht
      simpa [invocations_succ] using this

theorem Tasks.Do_eq_of_allNil {σ : Type} (t : Tasks σ) (ctxt : Context) (h : Executor)
    (s s1 : σ) (hnil : AllNil ctxt h t s s1) :
    Tasks.Do t ctxt h s = some (none, s1) := by
  have := Tasks.Do_of_allNil t [] ctxt h s s1 hnil
  simpa [Tasks.Do] using this

theorem list_split_at {α : Type} (t : List α) (k : Nat) (hk : k < t.length) :
    t = t.take k ++ t.get ⟨k, hk⟩ :: t.drop (k + 1) := by
  induction t generalizing k with
  | nil => simp at hk
  | cons a r ih =>
    cases k with
    | zero => simp
    | succ j =>
      have hj : j < r.length := by simpa using hk
      simp [← ih j hj]

/-! ## Lemmas on the runtime and the bus -/

theorem await_recv_of_passesBy (subs : List Subscription) (ch : Chan) (ctxt : Context)
    (script pre : List Occurrence) (o : Occurrence) (rest : List Occurrence) (v : Value)
    (hp : PassesBy subs ch ctxt script pre o rest) (hr : receives subs ch o = some v) :
    await subs ch ctxt script = some (Taken.recv v, rest) := by
  obtain ⟨hs, hpre⟩ := hp
  subst hs
  induction pre with
  | nil => simp [await, hr]
  | cons x xs ih =>
    have hx := hpre x (List.mem_cons_self x xs)
    have hxs : ∀ y ∈ xs, receives subs ch y = none ∧ cancels ctxt y = false :=
      fun y hy => hpre y (List.mem_cons_of_mem x hy)
    simp [await, hx.1, hx.2, ih hxs]

theorem await_done_of_passesBy (subs : List Subscription) (ch : Chan) (ctxt : Context)
    (script pre : List Occurrence) (o : Occurrence) (rest : List Occurrence)
    (hp : PassesBy subs ch ctxt script pre o rest) (hr : receives subs ch o = none)
    (hc : cancels ctxt o = true) :
    await subs ch ctxt script = some (Taken.done, rest) := by
  obtain ⟨hs, hpre⟩ := hp
  subst hs
  induction pre with
  | nil => simp [await, hr, hc]
  | cons x xs ih =>
    have hx := hpre x (List.mem_cons_self x xs)
    have hxs : ∀ y ∈ xs, receives subs ch y = none ∧ cancels ctxt y = false :=
      fun y hy => hpre y (List.mem_cons_of_mem x hy)
    simp [await, hx.1, hx.2, ih hxs]

theorem await_none_of_all_pass (subs : List Subscription) (ch : Chan) (ctxt : Context)
    (script : List Occurrence)
    (hall : ∀ x ∈ script, receives subs ch x = none ∧ cancels ctxt x = false) :
    await subs ch ctxt script = none := by
  induction script with
  | nil => rfl
  | cons x xs ih =>
    have hx := hall x (List.mem_cons_self x xs)
    have hxs : ∀ y ∈ xs, receives subs ch y = none ∧ cancels ctxt y = false :=
      fun y hy => hall y (List.mem_cons_of_mem x hy)
    simp [await, hx.1, hx.2, ih hxs]

theorem await_some_inv (subs : List Subscription) (ch : Chan) (ctxt : Context)
    (script : List Occurrence) (tk : Taken) (rest : List Occurrence)
    (ha : await subs ch ctxt script = some (tk, rest)) :
    ∃ pre o, PassesBy subs ch ctxt script pre o rest ∧
      ((∃ v, tk = Taken.recv v ∧ receives subs ch o = some v) ∨
       (tk = Taken.done ∧ receives subs ch o = none ∧ cancels ctxt o = true)) := by
  induction script with
  | nil => simp [await] at ha
  | cons x xs ih =>
    simp only [await] at ha
    cases hr : receives subs ch x with
    | some v =>
      simp only [hr, Option.some.injEq, Prod.mk.injEq] at ha
      obtain ⟨h1, h2⟩ := ha
      subst h1 h2
      exact ⟨[], x, ⟨rfl, by simp⟩, Or.inl ⟨v, rfl, hr⟩⟩
    | none =>
      simp only [hr] at ha
      cases hc : cancels ctxt x with
      | true =>
        simp only [hc, if_true, Option.some.injEq, Prod.mk.injEq] at ha
        obtain ⟨h1, h2⟩ := ha
        subst h1 h2
        exact ⟨[], x, ⟨rfl, by simp⟩, Or.inr ⟨rfl, hr, hc⟩⟩
      | false =>
        simp only [hc, Bool.false_eq_true, if_false] at ha
        obtain ⟨pre, o, ⟨hs, hpre⟩, hcase⟩ := ih ha
        refine ⟨x :: pre, o, ⟨by simp [hs], ?_⟩, hcase⟩
        intro y hy
        rcases List.mem_cons.mp hy with hy | hy
        · subst hy
          exact ⟨hr, hc⟩
        · exact hpre y hy

theorem le_foldr_max (cs : List Nat) (n : Nat) :
    n ≤ cs.foldr (fun c m => max (c + 1) m) n := by
  induction cs with
  | nil => simp
  | cons c cs ih =>
    simp only [List.foldr_cons]
    omega

theorem lt_foldr_max (cs : List Nat) (n c : Nat) (hc : c ∈ cs) :
    c < cs.foldr (fun c m => max (c + 1) m) n := by
  induction cs with
  | nil => simp at hc
  | cons d ds ih =>
    simp only [List.foldr_cons]
    rcases List.mem_cons.mp hc with hd | hd
    · omega
    · have := ih hd
      omega

theorem World.nextChan_le_fresh (w : World) : w.nextChan ≤ w.fresh :=
  le_foldr_max (w.subs.map Subscription.ch) w.nextChan

theorem World.lt_fresh (w : World) (s : Subscription) (hs : s ∈ w.subs) : s.ch < w.fresh :=
  lt_foldr_max (w.subs.map Subscription.ch) w.nextChan s.ch (List.mem_map_of_mem _ hs)

theorem World.ne_fresh (w : World) (s : Subscription) (hs : s ∈ w.subs) : s.ch ≠ w.fresh :=
  Nat.ne_of_lt (w.lt_fresh s hs)

theorem release_after_listen (w : World) (handler : Nat) (event : MethodType) :
    (w.subs ++ [(⟨handler, event, w.fresh⟩ : Subscription)]).filter
        (fun s => !decide (s.handler = handler ∧ s.ch = w.fresh)) = w.subs := by
  rw [List.filter_append]
  have hkeep : w.subs.filter (fun s => !decide (s.handler = handler ∧ s.ch = w.fresh)) =
      w.subs := by
    apply List.filter_eq_self.mpr
    intro s hs
    simp [w.ne_fresh s hs]
  rw [hkeep]
  simp

theorem receives_dispatch_after_listen (w : World) (handler : Nat) (event other : MethodType)
    (payload : Value) :
    receives (w.subs ++ [(⟨handler, event, w.fresh⟩ : Subscription)]) w.fresh
        (Occurrence.dispatch other payload) =
      if other = event then some payload else none := by
  by_cases he : other = event
  · subst he
    simp [receives]
  · have he2 : ¬ event = other := fun h => he h.symm
    simp only [receives, he, if_false]
    rw [if_neg]
    simp only [List.any_append, List.any_cons, List.any_nil, Bool.or_false, Bool.or_eq_true,
      List.any_eq_true, decide_eq_true_eq, not_or, not_exists, not_and]
    exact ⟨fun s hs hch => absurd hch (w.ne_fresh s hs), fun _ => he2⟩

theorem selectRecvOrDone_recv (ch : Chan) (ctxt : Context) (w : World)
    (pre : List Occurrence) (o : Occurrence) (rest : List Occurrence) (v : Value)
    (hp : PassesBy w.subs ch ctxt w.script pre o rest) (hr : receives w.subs ch o = some v) :
    selectRecvOrDone ch ctxt w =
      some (Taken.recv v, { w with script := rest, trace := w.trace ++ [Call.recv ch v] }) := by
  simp only [selectRecvOrDone, await_recv_of_passesBy _ _ _ _ _ _ _ _ hp hr]

theorem selectRecvOrDone_done (ch : Chan) (ctxt : Context) (w : World)
    (pre : List Occurrence) (o : Occurrence) (rest : List Occurrence)
    (hp : PassesBy w.subs ch ctxt w.script pre o rest) (hr : receives w.subs ch o = none)
    (hc : cancels ctxt o = true) :
    selectRecvOrDone ch ctxt w =
      some (Taken.done, { w with script := rest, trace := w.trace ++ [Call.done ctxt] }) := by
  simp only [selectRecvOrDone, await_done_of_passesBy _ _ _ _ _ _ _ hp hr hc]

theorem ClearDataForOrigin_Do_of_recv
    (Marshal : ClearDataForOriginParams → Except GoError (List Nat))
    (p : ClearDataForOriginParams) (ctxt : Option Context) (h : Nat) (w : World)
    (buf : List Nat) (pre : List Occurrence) (o : Occurrence) (rest : List Occurrence)
    (v : Value)
    (hm : Marshal p = Except.ok buf)
    (hp : PassesBy w.subs w.fresh (ctxt.getD Context.background) w.script pre o rest)
    (hv : receives w.subs w.fresh o = some v) :
    ClearDataForOriginParams.Do Marshal p ctxt h w =
      some
        (match v with
          | Value.nil => some GoError.ErrChannelClosed
          | Value.RawMessage _ => none
          | Value.error e => some e
          | Value.other _ => some GoError.ErrUnknownResult,
          { subs := w.subs, nextChan := w.fresh + 1, script := rest,
            trace := w.trace ++
              [Call.Execute h (ctxt.getD Context.background) CommandStorageClearDataForOrigin
                 buf w.fresh,
               Call.recv w.fresh v] }) := by
  have hsel := selectRecvOrDone_recv w.fresh (ctxt.getD Context.background)
    (FrameHandler.Execute h (ctxt.getD Context.background) CommandStorageClearDataForOrigin
      buf w).2 pre o rest v hp hv
  cases ctxt <;> cases v <;>
    simp_all [ClearDataForOriginParams.Do, FrameHandler.Execute, Option.getD]

theorem WaitEvent_Do_eq (event : MethodType) (ctx : Context) (handler : Nat) (w : World) :
    (WaitEvent event).Do ctx (Executor.targetHandler handler) w =
      match await (TargetHandler.Listen handler event w).2.subs w.fresh ctx w.script with
      | none => none
      | some (Taken.recv v, rest) =>
        some (none,
          { subs := w.subs, nextChan := w.fresh + 1, script := rest,
            trace := w.trace ++
              [Call.Listen handler event w.fresh, Call.recv w.fresh v,
               Call.Release handler w.fresh] })
      | some (Taken.done, rest) =>
        some (ctx.Err,
          { subs := w.subs, nextChan := w.fresh + 1, script := rest,
            trace := w.trace ++
              [Call.Listen handler event w.fresh, Call.done ctx,
               Call.Release handler w.fresh] }) := by
  simp only [WaitEvent, ActionFunc.toAction, ActionFunc.Do, TargetHandler.Listen,
    selectRecvOrDone]
  cases ha : await (w.subs ++ [(⟨handler, event, w.fresh⟩ : Subscription)]) w.fresh ctx
      w.script with
  | none => rfl
  | some r =>
    obtain ⟨tk, rest⟩ := r
    cases tk <;>
      simp only [TargetHandler.Release, release_after_listen, List.append_assoc,
        List.singleton_append, List.cons_append, List.nil_append]

theorem Sleep_Do_eq (d : Int) (ctxt : Context) (h : Executor) (w : World) :
    (Sleep d).Do ctxt h w =
      match await w.subs w.fresh ctxt w.script with
      | none => none
      | some (Taken.recv v, rest) =>
        some (none,
          { subs := w.subs, nextChan := w.fresh + 1, script := rest,
            trace := w.trace ++ [Call.After d w.fresh, Call.recv w.fresh v] })
      | some (Taken.done, rest) =>
        some (ctxt.Err,
          { subs := w.subs, nextChan := w.fresh + 1, script := rest,
            trace := w.trace ++ [Call.After d w.fresh, Call.done ctxt] }) := by
  simp only [Sleep, ActionFunc.toAction, ActionFunc.Do, time.After, selectRecvOrDone]
  cases ha : await w.subs w.fresh ctxt w.script with
  | none => rfl
  | some r =>
    obtain ⟨tk, rest⟩ := r
    cases tk <;> simp

theorem Err_ne_none_of_cancels (ctxt : Context) (o : Occurrence) (hc : cancels ctxt o = true) :
    ctxt.Err ≠ none := by
  cases ctxt with
  | background => simp [cancels] at hc
  | cancelCtx id cause => simp [Context.Err]

/-! ## The sequencer -/

/-- C1. `Tasks.Do` stops at the first failure.  Let `t` be any list of actions and
`k` a position in it (from 0) such that, run in order from state `s`, the actions
before position `k` all return `nil` (leaving state `s1`) and the action at position
`k` then returns the non-nil error `e` (leaving state `s2`).  Then `Tasks.Do` returns
exactly `e` in state `s2`, and with a counter in front of every action the log gains
exactly the invocations of positions `0..k`, once each and in order: no action after
position `k` is executed. -/
theorem Tasks_Do_stops_at_first_failure {σ : Type} (t : Tasks σ) (k : Nat)
    (hk : k < t.length) (ctxt : Context) (h : Executor) (s s1 s2 : σ) (e : GoError)
    (log : List Invocation)
    (hnil : AllNil ctxt h (t.take k) s s1)
    (hfail : (t.get ⟨k, hk⟩).Do ctxt h s1 = some (some e, s2)) :
    Tasks.Do t ctxt h s = some (some e, s2) ∧
    Tasks.Do (instrument t) ctxt h (s, log) =
      some (some e, (s2, log ++ invocations ctxt h 0 (k + 1))) := by
  have hlen : (t.take k).length = k := by
    simp only [List.length_take]
    omega
  constructor
  · rw [list_split_at t k hk, Tasks.Do_of_allNil _ _ ctxt h s s1 hnil]
    simp only [Tasks.Do, hfail]
  · have hsplit : instrument t =
        instrumentFrom 0 (t.take k) ++
          probe k (t.get ⟨k, hk⟩) :: instrumentFrom (k + 1) (t.drop (k + 1)) := by
      unfold instrument
      conv_lhs => rw [list_split_at t k hk]
      rw [instrumentFrom_append, hlen]
      simp only [instrumentFrom, Nat.zero_add]
    have hpre := allNil_instrumentFrom (t.take k) ctxt h 0 s s1 log hnil
    rw [hlen] at hpre
    rw [hsplit, Tasks.Do_of_allNil _ _ ctxt h _ _ hpre]
    simp only [Tasks.Do, probe, hfail, invocations_snoc, Nat.zero_add, List.append_assoc]

/-- C1, on three counting actions of which the second fails: the state counts two
executions and the log holds positions 0 and 1. -/
theorem Tasks_Do_stops_at_first_failure_witness :
    Tasks.Do [counterAction none, counterAction (some (GoError.New "boom")), counterAction none]
        canceledCtx (Executor.other 7) 0 = some (some (GoError.New "boom"), 2) ∧
    Tasks.Do
        (instrument
          [counterAction none, counterAction (some (GoError.New "boom")), counterAction none])
        canceledCtx (Executor.other 7) (0, []) =
      some (some (GoError.New "boom"),
        (2, [] ++ invocations canceledCtx (Executor.other 7) 0 (1 + 1))) :=
  Tasks_Do_stops_at_first_failure
    [counterAction none, counterAction (some (GoError.New "boom")), counterAction none]
    1 (by decide) canceledCtx (Executor.other 7) 0 1 2 (GoError.New "boom") []
    ⟨1, rfl, rfl⟩ rfl

/-- C2. When every action of the list, run in order from state `s`, returns `nil`
(leaving state `s1`), `Tasks.Do` returns `nil` in state `s1`, and with a counter in
front of every action the log gains exactly one invocation for each listed action, in
listed order, each with the context and the executor given to `Tasks.Do`.  The empty
list returns `nil`, leaves the state as it is and logs nothing. -/
theorem Tasks_Do_all_succeed {σ : Type} (t : Tasks σ) (ctxt : Context) (h : Executor)
    (s s1 : σ) (log : List Invocation) (hnil : AllNil ctxt h t s s1) :
    Tasks.Do t ctxt h s = some (none, s1) ∧
    Tasks.Do (instrument t) ctxt h (s, log) =
      some (none, (s1, log ++ invocations ctxt h 0 t.length)) ∧
    Tasks.Do ([] : Tasks σ) ctxt h s = some (none, s) ∧
    Tasks.Do (instrument ([] : Tasks σ)) ctxt h (s, log) = some (none, (s, log)) := by
  refine ⟨Tasks.Do_eq_of_allNil t ctxt h s s1 hnil, ?_, rfl, rfl⟩
  exact Tasks.Do_eq_of_allNil _ ctxt h _ _ (allNil_instrumentFrom t ctxt h 0 s s1 log hnil)

/-- C2, on two counting actions that both return `nil`. -/
theorem Tasks_Do_all_succeed_witness :
    Tasks.Do [counterAction none, counterAction none] expiredCtx
        (Executor.targetHandler 3) 0 = some (none, 2) ∧
    Tasks.Do (instrument [counterAction none, counterAction none]) expiredCtx
        (Executor.targetHandler 3) (0, []) =
      some (none, (2, [] ++ invocations expiredCtx (Executor.targetHandler 3) 0
        [counterAction none, counterAction none].length)) ∧
    Tasks.Do ([] : Tasks Nat) expiredCtx (Executor.targetHandler 3) 0 = some (none, 0) ∧
    Tasks.Do (instrument ([] : Tasks Nat)) expiredCtx (Executor.targetHandler 3) (0, []) =
      some (none, (0, [])) :=
  Tasks_Do_all_succeed [counterAction none, counterAction none] expiredCtx
    (Executor.targetHandler 3) 0 2 [] ⟨1, rfl, 2, rfl, rfl⟩

/-- C10. Nesting is flat.  For all lists `xs` and `ys`, running the two-element list
whose elements are `xs` and `ys` used as actions returns the same error in the same
state (or blocks alike) as running `xs ++ ys`; with a counter in front of every
action, numbered by its position in `xs ++ ys`, both runs leave the same log. -/
theorem Tasks_Do_nested_is_flat {σ : Type} (xs ys : Tasks σ) (ctxt : Context) (h : Executor)
    (s : σ) (log : List Invocation) :
    Tasks.Do [Tasks.toAction xs, Tasks.toAction ys] ctxt h s = Tasks.Do (xs ++ ys) ctxt h s ∧
    Tasks.Do
        [Tasks.toAction (instrumentFrom 0 xs), Tasks.toAction (instrumentFrom xs.length ys)]
        ctxt h (s, log) =
      Tasks.Do (instrument (xs ++ ys)) ctxt h (s, log) := by
  have flat : ∀ {τ : Type} (as bs : Tasks τ) (x : τ),
      Tasks.Do [Tasks.toAction as, Tasks.toAction bs] ctxt h x =
        Tasks.Do (as ++ bs) ctxt h x := by
    intro τ as bs x
    rw [Tasks.Do_append]
    simp only [Tasks.Do, Tasks.toAction]
    cases hx : Tasks.Do as ctxt h x with
    | none => rfl
    | some r =>
      obtain ⟨err, x1⟩ := r
      cases err with
      | some e => rfl
      | none =>
        simp only
        cases hy : Tasks.Do bs ctxt h x1 with
        | none => rfl
        | some q =>
          obtain ⟨err2, x2⟩ := q
          cases err2 <;> rfl
  refine ⟨flat xs ys s, ?_⟩
  rw [flat, instrument, instrumentFrom_append, Nat.zero_add]

/-! ## The command response race of `ClearDataForOriginParams.Do` -/

/-- C3. When a value `v` arrives on the outcome channel before cancellation (the first
occurrence that can decide the select lets the receive proceed with `v`),
`ClearDataForOriginParams.Do` returns, having made the one call to `Execute` and the one
receive, and its error is: `e` itself when `v` is the error value `e`; `nil` when `v` is
a `RawMessage`; `ErrChannelClosed` when `v` is nil; `ErrUnknownResult` when `v` has any
other shape. -/
theorem ClearDataForOrigin_Do_classifies
    (Marshal : ClearDataForOriginParams → Except GoError (List Nat))
    (p : ClearDataForOriginParams) (ctxt : Option Context) (h : Nat) (w : World)
    (buf : List Nat) (pre : List Occurrence) (o : Occurrence) (rest : List Occurrence)
    (v : Value)
    (hm : Marshal p = Except.ok buf)
    (hp : PassesBy w.subs w.fresh (ctxt.getD Context.background) w.script pre o rest)
    (hv : receives w.subs w.fresh o = some v) :
    ∃ err : error,
      ClearDataForOriginParams.Do Marshal p ctxt h w =
        some (err,
          { subs := w.subs, nextChan := w.fresh + 1, script := rest,
            trace := w.trace ++
              [Call.Execute h (ctxt.getD Context.background) CommandStorageClearDataForOrigin
                 buf w.fresh,
               Call.recv w.fresh v] }) ∧
      (∀ e, v = Value.error e → err = some e) ∧
      (∀ b, v = Value.RawMessage b → err = none) ∧
      (v = Value.nil → err = some GoError.ErrChannelClosed) ∧
      (∀ i, v = Value.other i → err = some GoError.ErrUnknownResult) := by
  refine ⟨_, ClearDataForOrigin_Do_of_recv Marshal p ctxt h w buf pre o rest v hm hp hv, ?_⟩
  cases v <;> simp

/-- C3, on a peer that answers with an error value after an unrelated event went by:
the error comes back as sent. -/
theorem ClearDataForOrigin_Do_classifies_witness :
    ∃ err : error,
      ClearDataForOriginParams.Do encodeOk (ClearDataForOrigin "https://a.test" "cookies")
          (some canceledCtx) 9
          (World.start
            [Occurrence.dispatch "Page.loadEventFired" Value.nil,
             Occurrence.send 0 (Value.error (GoError.remote (-32000) "no such origin"))]) =
        some (err,
          { subs := [], nextChan := 0 + 1, script := [],
            trace := [] ++
              [Call.Execute 9 canceledCtx CommandStorageClearDataForOrigin [123, 125] 0,
               Call.recv 0 (Value.error (GoError.remote (-32000) "no such origin"))] }) ∧
      (∀ e, Value.error (GoError.remote (-32000) "no such origin") = Value.error e →
        err = some e) ∧
      (∀ b, Value.error (GoError.remote (-32000) "no such origin") = Value.RawMessage b →
        err = none) ∧
      (Value.error (GoError.remote (-32000) "no such origin") = Value.nil →
        err = some GoError.ErrChannelClosed) ∧
      (∀ i, Value.error (GoError.remote (-32000) "no such origin") = Value.other i →
        err = some GoError.ErrUnknownResult) :=
  ClearDataForOrigin_Do_classifies encodeOk (ClearDataForOrigin "https://a.test" "cookies")
    (some canceledCtx) 9
    (World.start
      [Occurrence.dispatch "Page.loadEventFired" Value.nil,
       Occurrence.send 0 (Value.error (GoError.remote (-32000) "no such origin"))])
    [123, 125] [Occurrence.dispatch "Page.loadEventFired" Value.nil]
    (Occurrence.send 0 (Value.error (GoError.remote (-32000) "no such origin"))) []
    (Value.error (GoError.remote (-32000) "no such origin"))
    rfl ⟨rfl, by decide⟩ rfl

/-- C4 as stated fails: a peer that delivers the error value `ErrChannelClosed` makes
`Do` return `ErrChannelClosed`, the very result of a channel closed without a write. -/
theorem ClearDataForOrigin_Do_delivered_error_reads_as_closed :
    (ClearDataForOriginParams.Do encodeOk (ClearDataForOrigin "https://a.test" "cookies")
        (some canceledCtx) 9 (World.start [Occurrence.close 0])).map Prod.fst =
      some (some GoError.ErrChannelClosed) ∧
    (ClearDataForOriginParams.Do encodeOk (ClearDataForOrigin "https://a.test" "cookies")
        (some canceledCtx) 9
        (World.start [Occurrence.send 0 (Value.error GoError.ErrChannelClosed)])).map Prod.fst =
      some (some GoError.ErrChannelClosed) := by
  decide

/-- C4, amended.  When the first occurrence that can decide the select is the close of
the outcome channel, `Do` returns `ErrChannelClosed`.  When it is the delivery of a
value `v`, `Do` returns `ErrChannelClosed` exactly when `v` is the nil interface or the
error value `ErrChannelClosed` itself: every payload, every other error and every value
of another shape gives a different result. -/
theorem ClearDataForOrigin_Do_channel_closed
    (Marshal : ClearDataForOriginParams → Except GoError (List Nat))
    (p : ClearDataForOriginParams) (ctxt : Option Context) (h : Nat) (w : World)
    (buf : List Nat) (pre : List Occurrence) (o : Occurrence) (rest : List Occurrence)
    (hm : Marshal p = Except.ok buf)
    (hp : PassesBy w.subs w.fresh (ctxt.getD Context.background) w.script pre o rest) :
    (o = Occurrence.close w.fresh →
      ClearDataForOriginParams.Do Marshal p ctxt h w =
        some (some GoError.ErrChannelClosed,
          { subs := w.subs, nextChan := w.fresh + 1, script := rest,
            trace := w.trace ++
              [Call.Execute h (ctxt.getD Context.background) CommandStorageClearDataForOrigin
                 buf w.fresh,
               Call.recv w.fresh Value.nil] })) ∧
    (∀ v, o = Occurrence.send w.fresh v →
      ((ClearDataForOriginParams.Do Marshal p ctxt h w).map Prod.fst =
          some (some GoError.ErrChannelClosed) ↔
        v = Value.nil ∨ v = Value.error GoError.ErrChannelClosed)) := by
  constructor
  · intro ho
    have hv : receives w.subs w.fresh o = some Value.nil := by simp [ho, receives]
    rw [ClearDataForOrigin_Do_of_recv Marshal p ctxt h w buf pre o rest _ hm hp hv]
  · intro v ho
    have hv : receives w.subs w.fresh o = some v := by simp [ho, receives]
    rw [ClearDataForOrigin_Do_of_recv Marshal p ctxt h w buf pre o rest _ hm hp hv]
    cases v <;> simp

/-- C4 amended, on a channel closed without a write and on a delivered payload. -/
theorem ClearDataForOrigin_Do_channel_closed_witness :
    ClearDataForOriginParams.Do encodeOk (ClearDataForOrigin "https://a.test" "cookies")
        none 9 (World.start [Occurrence.close 0]) =
      some (some GoError.ErrChannelClosed,
        { subs := [], nextChan := 1, script := [],
          trace :=
            [Call.Execute 9 Context.background CommandStorageClearDataForOrigin [123, 125] 0,
             Call.recv 0 Value.nil] }) ∧
    ¬ (ClearDataForOriginParams.Do encodeOk (ClearDataForOrigin "https://a.test" "cookies")
        none 9 (World.start [Occurrence.send 0 (Value.RawMessage [123, 125])])).map Prod.fst =
      some (some GoError.ErrChannelClosed) :=
  ⟨(ClearDataForOrigin_Do_channel_closed encodeOk
      (ClearDataForOrigin "https://a.test" "cookies") none 9
      (World.start [Occurrence.close 0]) [123, 125] [] (Occurrence.close 0) []
      rfl ⟨rfl, by decide⟩).1 rfl,
   fun hret =>
    absurd
      (((ClearDataForOrigin_Do_channel_closed encodeOk
        (ClearDataForOrigin "https://a.test" "cookies") none 9
        (World.start [Occurrence.send 0 (Value.RawMessage [123, 125])]) [123, 125] []
        (Occurrence.send 0 (Value.RawMessage [123, 125])) []
        rfl ⟨rfl, by decide⟩).2 (Value.RawMessage [123, 125]) rfl).mp hret)
      (by decide)⟩

/-- C5 as stated fails: under a cancelled context, whose `Err()` is `context.Canceled`,
`Do` returns `ErrContextDone`, which is not that value; under a context past its
deadline, whose `Err()` is `context.DeadlineExceeded`, it returns `ErrContextDone` as
well. -/
theorem ClearDataForOrigin_Do_does_not_return_ctxt_Err :
    (ClearDataForOriginParams.Do encodeOk (ClearDataForOrigin "https://a.test" "cookies")
        (some canceledCtx) 9 (World.start [Occurrence.done 1])).map Prod.fst =
      some (some GoError.ErrContextDone) ∧
    (ClearDataForOriginParams.Do encodeOk (ClearDataForOrigin "https://a.test" "cookies")
        (some canceledCtx) 9 (World.start [Occurrence.done 1])).map Prod.fst ≠
      some canceledCtx.Err ∧
    (ClearDataForOriginParams.Do encodeOk (ClearDataForOrigin "https://a.test" "cookies")
        (some expiredCtx) 9 (World.start [Occurrence.done 2])).map Prod.fst =
      some (some GoError.ErrContextDone) ∧
    canceledCtx.Err ≠ expiredCtx.Err := by
  decide

/-- C5, amended.  When the context's `Done()` channel decides the select (the first
occurrence that can decide it closes `Done()`), `Do` returns the fixed error
`ErrContextDone`, whatever `ctxt.Err()` holds, having made the one call to `Execute` and
no receive on the outcome channel. -/
theorem ClearDataForOrigin_Do_context_done
    (Marshal : ClearDataForOriginParams → Except GoError (List Nat))
    (p : ClearDataForOriginParams) (ctxt : Option Context) (h : Nat) (w : World)
    (buf : List Nat) (pre : List Occurrence) (o : Occurrence) (rest : List Occurrence)
    (hm : Marshal p = Except.ok buf)
    (hp : PassesBy w.subs w.fresh (ctxt.getD Context.background) w.script pre o rest)
    (hr : receives w.subs w.fresh o = none)
    (hc : cancels (ctxt.getD Context.background) o = true) :
    ClearDataForOriginParams.Do Marshal p ctxt h w =
      some (some GoError.ErrContextDone,
        { subs := w.subs, nextChan := w.fresh + 1, script := rest,
          trace := w.trace ++
            [Call.Execute h (ctxt.getD Context.background) CommandStorageClearDataForOrigin
               buf w.fresh,
             Call.done (ctxt.getD Context.background)] }) := by
  have hsel := selectRecvOrDone_done w.fresh (ctxt.getD Context.background)
    (FrameHandler.Execute h (ctxt.getD Context.background) CommandStorageClearDataForOrigin
      buf w).2 pre o rest hp hr hc
  cases ctxt <;>
    simp_all [ClearDataForOriginParams.Do, FrameHandler.Execute, Option.getD]

/-- C5 amended, on a context whose deadline passes before the peer answers: the late
answer stays unread in the script. -/
theorem ClearDataForOrigin_Do_context_done_witness :
    ClearDataForOriginParams.Do encodeOk (ClearDataForOrigin "https://a.test" "cookies")
        (some expiredCtx) 9
        (World.start [Occurrence.done 2, Occurrence.send 0 (Value.RawMessage [123, 125])]) =
      some (some GoError.ErrContextDone,
        { subs := [], nextChan := 1,
          script := [Occurrence.send 0 (Value.RawMessage [123, 125])],
          trace :=
            [Call.Execute 9 expiredCtx CommandStorageClearDataForOrigin [123, 125] 0,
             Call.done expiredCtx] }) :=
  ClearDataForOrigin_Do_context_done encodeOk (ClearDataForOrigin "https://a.test" "cookies")
    (some expiredCtx) 9
    (World.start [Occurrence.done 2, Occurrence.send 0 (Value.RawMessage [123, 125])])
    [123, 125] [] (Occurrence.done 2) [Occurrence.send 0 (Value.RawMessage [123, 125])]
    rfl ⟨rfl, by decide⟩ rfl rfl

/-! ## The waits: `WaitEvent` and `Sleep` -/

/-- C6. For every event name, every context and every executor that is not a
`*TargetHandler`, `WaitEvent(event).Do` returns the non-nil error
`errors.New("load event error, not target handler")` and leaves the state as it was:
no `Listen`, no `Release` and no select is recorded, and no occurrence of the script is
consumed (the call returns also when a wait would block for ever). -/
theorem WaitEvent_capability_mismatch (event : MethodType) (ctx : Context) (id : Nat)
    (w : World) :
    (WaitEvent event).Do ctx (Executor.other id) w =
      some (some (GoError.New "load event error, not target handler"), w) ∧
    (some (GoError.New "load event error, not target handler") : error) ≠ none := by
  exact ⟨rfl, by simp⟩

/-- C7. Every run of `WaitEvent(event).Do` against a `*TargetHandler` that returns
records exactly three things: one `Listen(event)`, the case the select took (the
receive on the channel `Listen` returned, or `<-ctx.Done()`), and one `Release` of the
channel `Listen` returned.  The subscriptions the bus holds after the run are those it
held before. -/
theorem WaitEvent_releases_subscription (event : MethodType) (ctx : Context) (handler : Nat)
    (w : World) (err : error) (w1 : World)
    (hrun : (WaitEvent event).Do ctx (Executor.targetHandler handler) w = some (err, w1)) :
    (∃ c, (c = Call.done ctx ∨ ∃ v, c = Call.recv (TargetHandler.Listen handler event w).1 v) ∧
      w1.trace = w.trace ++
        [Call.Listen handler event (TargetHandler.Listen handler event w).1, c,
         Call.Release handler (TargetHandler.Listen handler event w).1]) ∧
    w1.subs = w.subs := by
  rw [WaitEvent_Do_eq] at hrun
  cases ha : await (TargetHandler.Listen handler event w).2.subs w.fresh ctx w.script with
  | none => simp [ha] at hrun
  | some r =>
    obtain ⟨tk, rest⟩ := r
    cases tk with
    | recv v =>
      simp only [ha, Option.some.injEq, Prod.mk.injEq] at hrun
      obtain ⟨_, hw⟩ := hrun
      subst hw
      exact ⟨⟨Call.recv w.fresh v, Or.inr ⟨v, rfl⟩, rfl⟩, rfl⟩
    | done =>
      simp only [ha, Option.some.injEq, Prod.mk.injEq] at hrun
      obtain ⟨_, hw⟩ := hrun
      subst hw
      exact ⟨⟨Call.done ctx, Or.inl rfl, rfl⟩, rfl⟩

/-- C7, on a bus that already holds a subscription of another caller, for a wait that
ends by cancellation: that subscription is all the bus holds afterwards. -/
theorem WaitEvent_releases_subscription_witness :
    (∃ c, (c = Call.done canceledCtx ∨ ∃ v, c = Call.recv 6 v) ∧
      [Call.Listen 4 "Page.loadEventFired" 6, Call.done canceledCtx, Call.Release 4 6] =
        [] ++ [Call.Listen 4 "Page.loadEventFired" 6, c, Call.Release 4 6]) ∧
    [(⟨4, "Network.requestWillBeSent", 5⟩ : Subscription)] =
      [(⟨4, "Network.requestWillBeSent", 5⟩ : Subscription)] :=
  WaitEvent_releases_subscription "Page.loadEventFired" canceledCtx 4
    { subs := [⟨4, "Network.requestWillBeSent", 5⟩], nextChan := 6,
      script := [Occurrence.done 1], trace := [] }
    (some GoError.Canceled)
    { subs := [⟨4, "Network.requestWillBeSent", 5⟩], nextChan := 7, script := [],
      trace := [Call.Listen 4 "Page.loadEventFired" 6, Call.done canceledCtx, Call.Release 4 6] }
    (by decide)

/-- C8. Against a `*TargetHandler`, with `ch` the channel `Listen(event)` returned and
the bus as `Listen` left it: (1) when the first occurrence that can decide the select
lets the receive on `ch` proceed, `WaitEvent(event).Do` returns `nil`; (2) when it
closes `ctx.Done()`, `Do` returns `ctx.Err()`, which is not `nil`; (3) `Do` returns
`nil` only in case (1); (4) the dispatch of an event lets the receive on `ch` proceed
exactly when its name is `event`; (5) while only events of other names are dispatched,
`Do` does not return. -/
theorem WaitEvent_outcome (event : MethodType) (ctx : Context) (handler : Nat) (w : World) :
    (∀ pre o rest v,
      PassesBy (TargetHandler.Listen handler event w).2.subs
        (TargetHandler.Listen handler event w).1 ctx w.script pre o rest →
      receives (TargetHandler.Listen handler event w).2.subs
        (TargetHandler.Listen handler event w).1 o = some v →
      (WaitEvent event).Do ctx (Executor.targetHandler handler) w =
        some (none,
          { subs := w.subs, nextChan := w.fresh + 1, script := rest,
            trace := w.trace ++
              [Call.Listen handler event w.fresh, Call.recv w.fresh v,
               Call.Release handler w.fresh] })) ∧
    (∀ pre o rest,
      PassesBy (TargetHandler.Listen handler event w).2.subs
        (TargetHandler.Listen handler event w).1 ctx w.script pre o rest →
      receives (TargetHandler.Listen handler event w).2.subs
        (TargetHandler.Listen handler event w).1 o = none →
      cancels ctx o = true →
      (WaitEvent event).Do ctx (Executor.targetHandler handler) w =
        some (ctx.Err,
          { subs := w.subs, nextChan := w.fresh + 1, script := rest,
            trace := w.trace ++
              [Call.Listen handler event w.fresh, Call.done ctx,
               Call.Release handler w.fresh] }) ∧
      ctx.Err ≠ none) ∧
    (∀ w1, (WaitEvent event).Do ctx (Executor.targetHandler handler) w = some (none, w1) →
      ∃ pre o rest v,
        PassesBy (TargetHandler.Listen handler event w).2.subs
          (TargetHandler.Listen handler event w).1 ctx w.script pre o rest ∧
        receives (TargetHandler.Listen handler event w).2.subs
          (TargetHandler.Listen handler event w).1 o = some v) ∧
    (∀ name payload,
      receives (TargetHandler.Listen handler event w).2.subs
        (TargetHandler.Listen handler event w).1 (Occurrence.dispatch name payload) =
        if name = event then some payload else none) ∧
    ((∀ x ∈ w.script, ∃ name payload, x = Occurrence.dispatch name payload ∧ name ≠ event) →
      (WaitEvent event).Do ctx (Executor.targetHandler handler) w = none) := by
  refine ⟨?_, ?_, ?_, ?_, ?_⟩
  · intro pre o rest v hp hv
    rw [WaitEvent_Do_eq]
    have ha := await_recv_of_passesBy _ _ _ _ _ _ _ _ hp hv
    simp only [TargetHandler.Listen] at ha ⊢
    simp only [ha]
  · intro pre o rest hp hr hc
    rw [WaitEvent_Do_eq]
    have ha := await_done_of_passesBy _ _ _ _ _ _ _ hp hr hc
    simp only [TargetHandler.Listen] at ha ⊢
    simp only [ha]
    exact ⟨trivial, Err_ne_none_of_cancels ctx o hc⟩
  · intro w1 hrun
    rw [WaitEvent_Do_eq] at hrun
    cases ha : await (TargetHandler.Listen handler event w).2.subs w.fresh ctx w.script with
    | none => simp [ha] at hrun
    | some r =>
      obtain ⟨tk, rest⟩ := r
      obtain ⟨pre, o, hp, hcase⟩ := await_some_inv _ _ _ _ _ _ ha
      rcases hcase with ⟨v, _, hv⟩ | ⟨htk, _, hc⟩
      · exact ⟨pre, o, rest, v, hp, hv⟩
      · subst htk
        simp only [ha, Option.some.injEq, Prod.mk.injEq] at hrun
        exact absurd hrun.1 (Err_ne_none_of_cancels ctx o hc)
  · intro name payload
    exact receives_dispatch_after_listen w handler event name payload
  · intro hall
    rw [WaitEvent_Do_eq]
    have ha : await (TargetHandler.Listen handler event w).2.subs w.fresh ctx w.script =
        none := by
      apply await_none_of_all_pass
      intro x hx
      obtain ⟨name, payload, hxe, hne⟩ := hall x hx
      subst hxe
      refine ⟨?_, by cases ctx <;> rfl⟩
      have := receives_dispatch_after_listen w handler event name payload
      simpa [hne, TargetHandler.Listen] using this
    simp only [ha]

/-- C8, on a wait for `Page.loadEventFired`: another event followed by the awaited one
gives `nil`; another event followed by cancellation gives `context.Canceled`; another
event alone leaves the wait blocked. -/
theorem WaitEvent_outcome_witness :
    (WaitEvent "Page.loadEventFired").Do canceledCtx (Executor.targetHandler 4)
        (World.start
          [Occurrence.dispatch "Network.requestWillBeSent" (Value.other 1),
           Occurrence.dispatch "Page.loadEventFired" (Value.other 2)]) =
      some (none,
        { subs := [], nextChan := 1, script := [],
          trace :=
            [Call.Listen 4 "Page.loadEventFired" 0, Call.recv 0 (Value.other 2),
             Call.Release 4 0] }) ∧
    (WaitEvent "Page.loadEventFired").Do canceledCtx (Executor.targetHandler 4)
        (World.start
          [Occurrence.dispatch "Network.requestWillBeSent" (Value.other 1),
           Occurrence.done 1]) =
      some (some GoError.Canceled,
        { subs := [], nextChan := 1, script := [],
          trace :=
            [Call.Listen 4 "Page.loadEventFired" 0, Call.done canceledCtx,
             Call.Release 4 0] }) ∧
    (WaitEvent "Page.loadEventFired").Do canceledCtx (Executor.targetHandler 4)
        (World.start [Occurrence.dispatch "Network.requestWillBeSent" (Value.other 1)]) =
      none :=
  ⟨(WaitEvent_outcome "Page.loadEventFired" canceledCtx 4
      (World.start
        [Occurrence.dispatch "Network.requestWillBeSent" (Value.other 1),
         Occurrence.dispatch "Page.loadEventFired" (Value.other 2)])).1
      [Occurrence.dispatch "Network.requestWillBeSent" (Value.other 1)]
      (Occurrence.dispatch "Page.loadEventFired" (Value.other 2)) [] (Value.other 2)
      ⟨rfl, by decide⟩ (by decide),
   ((WaitEvent_outcome "Page.loadEventFired" canceledCtx 4
      (World.start
        [Occurrence.dispatch "Network.requestWillBeSent" (Value.other 1),
         Occurrence.done 1])).2.1
      [Occurrence.dispatch "Network.requestWillBeSent" (Value.other 1)]
      (Occurrence.done 1) [] ⟨rfl, by decide⟩ (by decide) (by decide)).1,
   (WaitEvent_outcome "Page.loadEventFired" canceledCtx 4
      (World.start
        [Occurrence.dispatch "Network.requestWillBeSent" (Value.other 1)])).2.2.2.2
      (by
        intro x hx
        refine ⟨"Network.requestWillBeSent", Value.other 1, ?_, by decide⟩
        simpa [World.start] using hx)⟩

/-- C9. For every duration, context, executor and state, with `timer` the channel
`time.After(d)` returned: (1) when the first occurrence that can decide the select lets
the receive on `timer` proceed, `Sleep(d).Do` returns `nil`; (2) when it closes
`ctxt.Done()`, `Do` returns `ctxt.Err()`, which is not `nil`; (3) the executor has no
influence on the run; (4) a run that returns has recorded the call `time.After(d)` and
the case the select took, nothing else (no `Execute`, no `Listen`, no `Release`), and
has left the subscriptions of the bus as they were. -/
theorem Sleep_outcome (d : Int) (ctxt : Context) (h : Executor) (w : World) :
    (∀ pre o rest v,
      PassesBy w.subs (time.After d w).1 ctxt w.script pre o rest →
      receives w.subs (time.After d w).1 o = some v →
      (Sleep d).Do ctxt h w =
        some (none,
          { subs := w.subs, nextChan := w.fresh + 1, script := rest,
            trace := w.trace ++ [Call.After d w.fresh, Call.recv w.fresh v] })) ∧
    (∀ pre o rest,
      PassesBy w.subs (time.After d w).1 ctxt w.script pre o rest →
      receives w.subs (time.After d w).1 o = none →
      cancels ctxt o = true →
      (Sleep d).Do ctxt h w =
        some (ctxt.Err,
          { subs := w.subs, nextChan := w.fresh + 1, script := rest,
            trace := w.trace ++ [Call.After d w.fresh, Call.done ctxt] }) ∧
      ctxt.Err ≠ none) ∧
    (∀ h2, (Sleep d).Do ctxt h2 w = (Sleep d).Do ctxt h w) ∧
    (∀ err w1, (Sleep d).Do ctxt h w = some (err, w1) →
      w1.subs = w.subs ∧
      ∃ c, ((c = Call.done ctxt ∧ err = ctxt.Err) ∨
            ∃ v, c = Call.recv (time.After d w).1 v ∧ err = none) ∧
        w1.trace = w.trace ++ [Call.After d (time.After d w).1, c]) := by
  refine ⟨?_, ?_, ?_, ?_⟩
  · intro pre o rest v hp hv
    rw [Sleep_Do_eq]
    have ha := await_recv_of_passesBy _ _ _ _ _ _ _ _ hp hv
    simp only [time.After] at ha
    simp only [ha]
  · intro pre o rest hp hr hc
    rw [Sleep_Do_eq]
    have ha := await_done_of_passesBy _ _ _ _ _ _ _ hp hr hc
    simp only [time.After] at ha
    simp only [ha]
    exact ⟨trivial, Err_ne_none_of_cancels ctxt o hc⟩
  · intro h2
    rw [Sleep_Do_eq, Sleep_Do_eq]
  · intro err w1 hrun
    rw [Sleep_Do_eq] at hrun
    cases ha : await w.subs w.fresh ctxt w.script with
    | none => simp [ha] at hrun
    | some r =>
      obtain ⟨tk, rest⟩ := r
      cases tk with
      | recv v =>
        simp only [ha, Option.some.injEq, Prod.mk.injEq] at hrun
        obtain ⟨he, hw⟩ := hrun
        subst hw
        exact ⟨rfl, Call.recv w.fresh v, Or.inr ⟨v, rfl, he.symm⟩, rfl⟩
      | done =>
        simp only [ha, Option.some.injEq, Prod.mk.injEq] at hrun
        obtain ⟨he, hw⟩ := hrun
        subst hw
        exact ⟨rfl, Call.done ctxt, Or.inl ⟨rfl, he.symm⟩, rfl⟩

/-- C9, on a sleep of five seconds: when the timer fires before the deadline the result
is `nil`; when the deadline passes first the result is `context.DeadlineExceeded`. -/
theorem Sleep_outcome_witness :
    (Sleep 5000000000).Do expiredCtx (Executor.other 0)
        (World.start [Occurrence.send 0 (Value.other 1), Occurrence.done 2]) =
      some (none,
        { subs := [], nextChan := 1, script := [Occurrence.done 2],
          trace := [Call.After 5000000000 0, Call.recv 0 (Value.other 1)] }) ∧
    (Sleep 5000000000).Do expiredCtx (Executor.other 0)
        (World.start [Occurrence.done 2, Occurrence.send 0 (Value.other 1)]) =
      some (some GoError.DeadlineExceeded,
        { subs := [], nextChan := 1, script := [Occurrence.send 0 (Value.other 1)],
          trace := [Call.After 5000000000 0, Call.done expiredCtx] }) :=
  ⟨(Sleep_outcome 5000000000 expiredCtx (Executor.other 0)
      (World.start [Occurrence.send 0 (Value.other 1), Occurrence.done 2])).1
      [] (Occurrence.send 0 (Value.other 1)) [Occurrence.done 2] (Value.other 1)
      ⟨rfl, by decide⟩ (by decide),
   ((Sleep_outcome 5000000000 expiredCtx (Executor.other 0)
      (World.start [Occurrence.done 2, Occurrence.send 0 (Value.other 1)])).2.1
      [] (Occurrence.done 2) [Occurrence.send 0 (Value.other 1)]
      ⟨rfl, by decide⟩ (by decide) (by decide)).1⟩

end Chromedp
